import Mathlib

/-!
Verification of the core of the `nhl-api` Rust client: the HTTP status
classifier (`HttpClient::error_from_status`), the response dispatcher
(`HttpClient::handle_response` / `HttpClient::get_json`), the endpoint table
(`Endpoint::base_url`), and the calendar model (`GameDate`, `Season` in
`src/date.rs`).

Strings are modelled as `List Char`.  Rust byte-level operations
(`str::len`, byte-range slicing) are modelled through an explicit UTF-8
byte-length function.  Machine integers (`u16`) are modelled as `Nat` with
explicit `% 2 ^ 16` where overflow matters.  Fallible operations return
`Option`; a Rust panic is modelled as the `Except.error` branch of `Except`.
-/

namespace NhlApi

/-! ### Decimal digit strings

`natStr n` is the list of characters Rust's `format!("{}", n)` produces for
a nonnegative integer: the usual base-10 numeral with no leading zeros, and
"0" for zero.  It is defined with explicit fuel so that it is structurally
recursive and evaluates inside the kernel.  -/

/-- The character for a decimal digit (0-9). -/
def digitChar : Nat → Char
  | 0 => '0' | 1 => '1' | 2 => '2' | 3 => '3' | 4 => '4'
  | 5 => '5' | 6 => '6' | 7 => '7' | 8 => '8' | 9 => '9'
  | _ => '*'

/-- Fuel-driven base-10 printer; the fuel bounds the recursion depth. -/
def natStrAux : Nat → Nat → List Char
  | 0, _ => []
  | fuel + 1, n =>
    if n < 10 then [digitChar n] else natStrAux fuel (n / 10) ++ [digitChar (n % 10)]

/-- Decimal representation of a `Nat`, as Rust's `Display` for integers. -/
def natStr (n : Nat) : List Char := natStrAux (n + 1) n

/-- Left-pad a character list with zeros up to width `w`
(Rust's `{:0w}` padding). -/
def leftPad (w : Nat) (cs : List Char) : List Char :=
  List.replicate (w - cs.length) '0' ++ cs

/-- ASCII decimal digit test (Rust `char::is_ascii_digit`). -/
def isDigitChar (c : Char) : Bool :=
  decide (48 ≤ c.toNat ∧ c.toNat ≤ 57)

/-- The numeric value of a list of decimal digit characters, folded
left-to-right starting from `acc` — exactly how Rust's integer parsing and
chrono's `scan::number` accumulate a value. -/
def digitsVal (acc : Nat) (cs : List Char) : Nat :=
  cs.foldl (fun a c => a * 10 + (c.toNat - 48)) acc

/-! ### Season (`src/date.rs`)

`Season` stores only `start_year : u16`; `end_year` is derived.  `u16`
arithmetic wraps at `2 ^ 16` (release-build semantics).  -/

/-- `Season` from `src/date.rs`: a single `start_year : u16` field. -/
structure Season where
  start_year : Nat
deriving DecidableEq, Repr

/-- `Season::end_year`: `start_year + 1` with `u16` wrap-around. -/
def Season.end_year (s : Season) : Nat := (s.start_year + 1) % 65536

/-- `Season::to_api_string`: `format!("{}{}", start_year, end_year())`,
no zero padding. -/
def Season.to_api_string (s : Season) : List Char :=
  natStr s.start_year ++ natStr s.end_year

/-! ### UTF-8 byte lengths and byte-index slicing

`Season::from_str` checks `s.len() != 8` (a BYTE length in Rust) and then
slices `s[0..4]` and `s[4..8]` — byte-range slicing, which PANICS when the
index falls strictly inside a multi-byte character. -/

/-- Number of bytes in the UTF-8 encoding of one scalar value. -/
def charLen (c : Char) : Nat :=
  if c.toNat < 128 then 1
  else if c.toNat < 2048 then 2
  else if c.toNat < 65536 then 3
  else 4

/-- Total UTF-8 byte length of a string (Rust `str::len`). -/
def utf8Len (cs : List Char) : Nat := (cs.map charLen).sum

/-- Split a string at byte index `n`: `some (pre, suf)` when `n` lands on a
character boundary, `none` otherwise (where Rust byte slicing would panic
or run past the end). -/
def splitAtByte : Nat → List Char → Option (List Char × List Char)
  | 0, cs => some ([], cs)
  | _ + 1, [] => none
  | n + 1, c :: cs =>
    if charLen c ≤ n + 1 then
      (splitAtByte (n + 1 - charLen c) cs).map (fun p => (c :: p.1, p.2))
    else none

/-- The digit part of Rust's unsigned-integer parsing: one or more ASCII
digits whose value fits in `u16`. -/
def u16ParseDigits (ds : List Char) : Option Nat :=
  if ds.isEmpty then none
  else if ds.all isDigitChar then
    if digitsVal 0 ds < 65536 then some (digitsVal 0 ds) else none
  else none

/-- Rust `str::parse::<u16>()` on a slice: an optional leading `'+'` sign,
then one or more ASCII digits; the value must fit in `u16`.  Any other
shape is an error (`none`); in particular a leading `'-'` or any non-digit
character is rejected. -/
def u16Parse (cs : List Char) : Option Nat :=
  u16ParseDigits (if cs.head? = some '+' then cs.tail else cs)

/-- The `?`-chained tail of `Season::from_str`: both halves must parse and
the second year must be the first plus one. -/
def seasonOfParts (oa ob : Option Nat) : Option Season :=
  match oa, ob with
  | some sy, some ey => if ey = sy + 1 then some ⟨sy⟩ else none
  | _, _ => none

/-- `Season::from_str` (`src/date.rs`): reject unless the byte length is 8;
slice bytes `[0..4]` and `[4..8]` (panicking — `Except.error ()` — when
byte 4 is not a character boundary); parse both halves as `u16`; require
the second to be the first plus one. -/
def Season.from_api_str (cs : List Char) : Except Unit (Option Season) :=
  if utf8Len cs ≠ 8 then .ok none
  else
    match splitAtByte 4 cs with
    | none => .error ()
    | some (a, b) => .ok (seasonOfParts (u16Parse a) (u16Parse b))

/-! ### Endpoint table (`src/http_client.rs`) -/

/-- The production variants of `Endpoint` (the `#[cfg(test)]`-only
`Custom` variant is not part of the production enumeration). -/
inductive Endpoint where
  | ApiWebV1
  | ApiCore
  | ApiStats
  | SearchV1
deriving DecidableEq, Repr

/-- `Endpoint::base_url`: the fixed base-URL table. -/
def Endpoint.base_url : Endpoint → List Char
  | .ApiWebV1 => ("https://api-web.nhle.com/v1/").toList
  | .ApiCore => ("https://api.nhle.com/").toList
  | .ApiStats => ("https://api.nhle.com/stats/rest/").toList
  | .SearchV1 => ("https://search.d3.nhle.com/api/v1/").toList

/-! ### Error taxonomy (`src/error.rs`) and the classifier -/

/-- `NHLApiError`.  Variants that carry payloads the claims never inspect
(`RequestError`, `JsonError`, `Other`) keep only what the claims need. -/
inductive NHLApiError where
  | ResourceNotFound (message : List Char) (status_code : Nat)
  | RateLimitExceeded (message : List Char) (status_code : Nat)
  | ServerError (message : List Char) (status_code : Nat)
  | BadRequest (message : List Char) (status_code : Nat)
  | Unauthorized (message : List Char) (status_code : Nat)
  | ApiError (message : List Char) (status_code : Nat) (error_code : Option Int)
  | RequestError
  | JsonError
  | Other (message : List Char)
deriving DecidableEq, Repr

/-- The message built at the top of `HttpClient::error_from_status`:
`format!("Request to {} failed", url)`. -/
def requestMsg (url : List Char) : List Char :=
  ("Request to ").toList ++ url ++ (" failed").toList

/-- `HttpClient::error_from_status`: the ordered status-code match. -/
def error_from_status (status_code : Nat) (url : List Char) : NHLApiError :=
  let message := requestMsg url
  if status_code = 404 then .ResourceNotFound message status_code
  else if status_code = 429 then .RateLimitExceeded message status_code
  else if status_code = 400 then .BadRequest message status_code
  else if status_code = 401 then .Unauthorized message status_code
  else if 500 ≤ status_code ∧ status_code ≤ 599 then .ServerError message status_code
  else .ApiError (("Unexpected error: ").toList ++ message) status_code none

/-- The status code stored in a classified error, when there is one. -/
def NHLApiError.statusOf : NHLApiError → Option Nat
  | .ResourceNotFound _ c => some c
  | .RateLimitExceeded _ c => some c
  | .ServerError _ c => some c
  | .BadRequest _ c => some c
  | .Unauthorized _ c => some c
  | .ApiError _ c _ => some c
  | _ => none

/-- The message stored in a classified error, when there is one. -/
def NHLApiError.messageOf : NHLApiError → Option (List Char)
  | .ResourceNotFound m _ => some m
  | .RateLimitExceeded m _ => some m
  | .ServerError m _ => some m
  | .BadRequest m _ => some m
  | .Unauthorized m _ => some m
  | .ApiError m _ _ => some m
  | .Other m => some m
  | _ => none

/-! ### The dispatcher (`HttpClient::get_json`, `HttpClient::handle_response`)

`get_json` is `async` and generic over a `serde`-decodable `T`.  The part
the claims are about is pure: the URL-joining step, and what happens to a
received response (status check, classification, decode).  The network is
abstracted away by taking the received `Response` as input; the `serde`
decoder is abstracted as a function `B → Option T` on an opaque body type.
A failing `response.json::<T>()` call surfaces through `?` as
`NHLApiError::RequestError` (the `From<reqwest::Error>` conversion). -/

/-- The URL-joining step at the top of `HttpClient::get_json`:
slash-normalised concatenation of `base` and `resource` (`&resource[1..]`
drops the one-byte leading `'/'`). -/
def join_url (base resource : List Char) : List Char :=
  if base.getLast? = some '/' ∧ resource.head? = some '/' then
    base ++ resource.drop 1
  else if ¬base.getLast? = some '/' ∧ ¬resource.head? = some '/' then
    base ++ '/' :: resource
  else base ++ resource

/-- A received HTTP response: numeric status plus an opaque body. -/
structure Response (B : Type) where
  status : Nat
  body : B

/-- `reqwest::StatusCode::is_success`: status in `200..=299`. -/
def statusIsSuccess (status : Nat) : Bool :=
  decide (200 ≤ status ∧ status < 300)

/-- `HttpClient::handle_response`: pass a success response through
unchanged, classify anything else. -/
def handle_response {B : Type} (resp : Response B) (url : List Char) :
    Except NHLApiError (Response B) :=
  if statusIsSuccess resp.status then .ok resp
  else .error (error_from_status resp.status url)

/-- The response-consuming tail of `HttpClient::get_json`: run the response
through `handle_response` (with the resource string as the request
identifier, as in the source) and only then decode the body. -/
def get_json {B T : Type} (decode : B → Option T) (resp : Response B)
    (resource : List Char) : Except NHLApiError T :=
  match handle_response resp resource with
  | .error e => .error e
  | .ok r =>
    match decode r.body with
    | some t => .ok t
    | none => .error .RequestError

/-! ### Calendar model (`src/date.rs`)

`GameDate` wraps chrono's `NaiveDate`.  A `NaiveDate` is modelled as a
year/month/day record with the proleptic-Gregorian validity predicate;
the model leaves the year unbounded (chrono limits it to about ±262
thousand, a bound none of the claims exercises). -/

/-- A calendar date: chrono's `NaiveDate` as a plain record. -/
structure NaiveDate where
  year : Int
  month : Nat
  day : Nat
deriving DecidableEq, Repr

/-- Proleptic Gregorian leap-year rule. -/
def isLeapYear (y : Int) : Bool :=
  (y % 4 == 0 && y % 100 != 0) || y % 400 == 0

/-- Days in a month of the proleptic Gregorian calendar
(0 for an invalid month number). -/
def daysInMonth (y : Int) : Nat → Nat
  | 1 => 31
  | 2 => if isLeapYear y then 29 else 28
  | 3 => 31
  | 4 => 30
  | 5 => 31
  | 6 => 30
  | 7 => 31
  | 8 => 31
  | 9 => 30
  | 10 => 31
  | 11 => 30
  | 12 => 31
  | _ => 0

/-- Validity of a year/month/day triple (chrono's `from_ymd_opt`
succeeds exactly on valid triples). -/
def NaiveDate.isValid (d : NaiveDate) : Bool :=
  decide (1 ≤ d.month ∧ d.month ≤ 12 ∧ 1 ≤ d.day ∧ d.day ≤ daysInMonth d.year d.month)

/-- chrono's `NaiveDate::from_ymd_opt`. -/
def from_ymd_opt (y : Int) (m d : Nat) : Option NaiveDate :=
  if (NaiveDate.mk y m d).isValid then some ⟨y, m, d⟩ else none

/-- `GameDate` from `src/date.rs`: the current date (`Now`) or a
specific date. -/
inductive GameDate where
  | Now
  | Date (date : NaiveDate)
deriving DecidableEq, Repr

/-! #### Formatting (`GameDate::to_api_string`, chrono `%Y-%m-%d`)

chrono zero-pads `%Y` to 4 digits for years `0..=9999` and prints an
explicit sign with at-least-4-digit padding for any other year
(`+10000`, `-0001`); `%m` and `%d` are zero-padded to 2 digits. -/

/-- chrono's formatting of the `%Y` field. -/
def formatYear (y : Int) : List Char :=
  if 0 ≤ y ∧ y < 10000 then leftPad 4 (natStr y.toNat)
  else if 0 ≤ y then '+' :: leftPad 4 (natStr y.toNat)
  else '-' :: leftPad 4 (natStr (-y).toNat)

/-- chrono's `date.format("%Y-%m-%d")`. -/
def formatDate (d : NaiveDate) : List Char :=
  formatYear d.year ++ '-' :: leftPad 2 (natStr d.month) ++ '-' :: leftPad 2 (natStr d.day)

/-- `GameDate::to_api_string`: `"now"` for `Now`, `%Y-%m-%d` otherwise. -/
def GameDate.to_api_string : GameDate → List Char
  | .Now => ("now").toList
  | .Date d => formatDate d

/-! #### Parsing (`GameDate::from_str`, chrono `parse_from_str`)

chrono scans a numeric field by consuming between 1 and `max` leading
digit characters greedily.  For `%Y` an explicit sign lifts the 4-digit
cap; `%m` and `%d` take at most 2 digits.  The parser fails unless the
whole input is consumed, then validates the triple. -/

/-- Greedy digit scanner: consume up to `max` leading digits, returning
the accumulated value, the number of characters consumed, and the rest. -/
def scanNumAux : Nat → Nat → Nat → List Char → Nat × Nat × List Char
  | 0, acc, consumed, cs => (acc, consumed, cs)
  | _ + 1, acc, consumed, [] => (acc, consumed, [])
  | max + 1, acc, consumed, c :: rest =>
    if isDigitChar c then scanNumAux max (acc * 10 + (c.toNat - 48)) (consumed + 1) rest
    else (acc, consumed, c :: rest)

/-- chrono's `scan::number`: between `minW` and `maxW` digits. -/
def scanNum (minW maxW : Nat) (cs : List Char) : Option (Nat × List Char) :=
  let r := scanNumAux maxW 0 0 cs
  if r.2.1 < minW then none else some (r.1, r.2.2)

/-- chrono's parsing of the `%Y` field: an optional explicit sign allows
any number of digits; without a sign at most 4 digits are consumed. -/
def parseYear (cs : List Char) : Option (Int × List Char) :=
  if cs.head? = some '-' then
    (scanNum 1 cs.tail.length cs.tail).map fun p => (-(p.1 : Int), p.2)
  else if cs.head? = some '+' then
    (scanNum 1 cs.tail.length cs.tail).map fun p => ((p.1 : Int), p.2)
  else
    (scanNum 1 4 cs).map fun p => ((p.1 : Int), p.2)

/-- Consume the literal `'-'` separator of the format string. -/
def expectDash : List Char → Option (List Char)
  | '-' :: rest => some rest
  | _ => none

/-- chrono's `NaiveDate::parse_from_str(s, "%Y-%m-%d")`: scan the three
fields and the two literal dashes, require the input to be exhausted, and
resolve the triple through validity checking. -/
def parseDate (cs : List Char) : Option NaiveDate :=
  match parseYear cs with
  | none => none
  | some (y, r1) =>
    match expectDash r1 with
    | none => none
    | some r2 =>
      match scanNum 1 2 r2 with
      | none => none
      | some (m, r3) =>
        match expectDash r3 with
        | none => none
        | some r4 =>
          match scanNum 1 2 r4 with
          | none => none
          | some (d, r5) => if r5 = [] then from_ymd_opt y m d else none

/-- `GameDate::from_str`: the literal token `"now"` parses to `Now`; any
other string goes through the `%Y-%m-%d` parser.  The chrono `ParseError`
payload is collapsed into `none`. -/
def GameDate.from_api_str (cs : List Char) : Option GameDate :=
  if cs = ("now").toList then some .Now
  else (parseDate cs).map .Date

/-! #### Day arithmetic (`GameDate::add_days`)

`add_days` resolves the receiver (`Now` becomes the local current date,
passed here explicitly as `today`) and adds a signed number of days with
proleptic Gregorian month/year/leap rollover — chrono's
`NaiveDate + Duration::days(n)`, modelled as an iterated day step. -/

/-- The next calendar day, rolling over month and year boundaries. -/
def nextDay (d : NaiveDate) : NaiveDate :=
  if d.day < daysInMonth d.year d.month then ⟨d.year, d.month, d.day + 1⟩
  else if d.month < 12 then ⟨d.year, d.month + 1, 1⟩
  else ⟨d.year + 1, 1, 1⟩

/-- The previous calendar day, rolling over month and year boundaries. -/
def prevDay (d : NaiveDate) : NaiveDate :=
  if 1 < d.day then ⟨d.year, d.month, d.day - 1⟩
  else if 1 < d.month then ⟨d.year, d.month - 1, daysInMonth d.year (d.month - 1)⟩
  else ⟨d.year - 1, 12, 31⟩

/-- Iterate a day step. -/
def iterDays (f : NaiveDate → NaiveDate) : Nat → NaiveDate → NaiveDate
  | 0, d => d
  | n + 1, d => iterDays f n (f d)

/-- Signed day offset on a `NaiveDate`. -/
def addDaysDate (d : NaiveDate) : Int → NaiveDate
  | Int.ofNat n => iterDays nextDay n d
  | Int.negSucc n => iterDays prevDay (n + 1) d

/-- `GameDate::as_date`: resolve `Now` to the local current date, which the
model receives explicitly as `today`. -/
def GameDate.as_date (today : NaiveDate) : GameDate → NaiveDate
  | .Now => today
  | .Date d => d

/-- `GameDate::add_days`: resolve, offset, and wrap the result in `Date`. -/
def GameDate.add_days (today : NaiveDate) (g : GameDate) (n : Int) : GameDate :=
  GameDate.Date (addDaysDate (g.as_date today) n)

/-! ### Specification-side vocabulary

The following definitions are not translations of source functions; they
are the vocabulary in which the claims speak (slash normalisation, the
`YYYY-MM-DD` shape, the shape accepted by Rust's `u16` parser), used to
state the theorems. -/

/-- Remove one trailing `'/'` if present. -/
def stripTrailingSlash (cs : List Char) : List Char :=
  if cs.getLast? = some '/' then cs.dropLast else cs

/-- Remove one leading `'/'` if present. -/
def stripLeadingSlash (cs : List Char) : List Char :=
  if cs.head? = some '/' then cs.tail else cs

/-- The `YYYY-MM-DD` shape: exactly ten characters, digits in the year,
month and day positions, `'-'` separators. -/
def isYmdShape (cs : List Char) : Bool :=
  match cs with
  | [y1, y2, y3, y4, s1, m1, m2, s2, d1, d2] =>
    isDigitChar y1 && isDigitChar y2 && isDigitChar y3 && isDigitChar y4 &&
    s1 == '-' && isDigitChar m1 && isDigitChar m2 && s2 == '-' &&
    isDigitChar d1 && isDigitChar d2
  | _ => false

/-- A character sequence accepted by Rust's `u16` parser with value `v`
(ignoring the range check): ASCII digits, optionally preceded by one
`'+'` sign. -/
def PlusDigitsChunk (cs : List Char) (v : Nat) : Prop :=
  (cs ≠ [] ∧ cs.all isDigitChar = true ∧ digitsVal 0 cs = v) ∨
  (∃ t, cs = '+' :: t ∧ t ≠ [] ∧ t.all isDigitChar = true ∧ digitsVal 0 t = v)

/-- `true` when the list does not begin with an ASCII digit — the shape of
a remainder at which a greedy digit scan stops. -/
def noDigitHead : List Char → Bool
  | [] => true
  | c :: _ => !isDigitChar c

/-! ## Lemmas about decimal digit strings -/

theorem isDigitChar_digitChar {d : Nat} (h : d < 10) : isDigitChar (digitChar d) = true := by
  interval_cases d <;> decide

theorem toNat_digitChar {d : Nat} (h : d < 10) : (digitChar d).toNat - 48 = d := by
  interval_cases d <;> decide

theorem toNat_of_isDigitChar {c : Char} (h : isDigitChar c = true) :
    48 ≤ c.toNat ∧ c.toNat ≤ 57 := by
  simpa [isDigitChar] using h

theorem natStrAux_all_digits : ∀ fuel n : Nat, (natStrAux fuel n).all isDigitChar = true
  | 0, _ => rfl
  | fuel + 1, n => by
    by_cases h : n < 10
    · simp [natStrAux, h, isDigitChar_digitChar h]
    · simp [natStrAux, h, natStrAux_all_digits fuel (n / 10),
        isDigitChar_digitChar (Nat.mod_lt n (by omega) : n % 10 < 10)]

theorem natStrAux_ne_nil (fuel n : Nat) : natStrAux (fuel + 1) n ≠ [] := by
  by_cases h : n < 10 <;> simp [natStrAux, h]

theorem digitsVal_natStrAux : ∀ fuel n acc : Nat, n < fuel →
    digitsVal acc (natStrAux fuel n) = acc * 10 ^ (natStrAux fuel n).length + n
  | 0, _, _, h => absurd h (by omega)
  | fuel + 1, n, acc, h => by
    by_cases h10 : n < 10
    · rw [natStrAux, if_pos h10]
      show acc * 10 + ((digitChar n).toNat - 48) = acc * 10 ^ ([digitChar n]).length + n
      rw [toNat_digitChar h10]
      simp
    · have hrec : n / 10 < fuel := by omega
      have ih := digitsVal_natStrAux fuel (n / 10) acc hrec
      rw [natStrAux, if_neg h10]
      have hstep : digitsVal acc (natStrAux fuel (n / 10) ++ [digitChar (n % 10)]) =
          digitsVal acc (natStrAux fuel (n / 10)) * 10 + (n % 10) := by
        rw [digitsVal, List.foldl_append]
        show digitsVal acc (natStrAux fuel (n / 10)) * 10 + ((digitChar (n % 10)).toNat - 48) =
          digitsVal acc (natStrAux fuel (n / 10)) * 10 + n % 10
        rw [toNat_digitChar (Nat.mod_lt n (by omega) : n % 10 < 10)]
      rw [hstep, ih, List.length_append, List.length_singleton]
      calc (acc * 10 ^ (natStrAux fuel (n / 10)).length + n / 10) * 10 + n % 10
          = acc * (10 ^ (natStrAux fuel (n / 10)).length * 10) + (10 * (n / 10) + n % 10) := by
            ring
        _ = acc * 10 ^ ((natStrAux fuel (n / 10)).length + 1) + n := by
            rw [← pow_succ]
            congr 1
            omega

theorem digitsVal_natStr (n : Nat) : digitsVal 0 (natStr n) = n := by
  have h := digitsVal_natStrAux (n + 1) n 0 (by omega)
  simpa [natStr] using h

theorem natStr_all_digits (n : Nat) : (natStr n).all isDigitChar = true :=
  natStrAux_all_digits (n + 1) n

theorem natStr_ne_nil (n : Nat) : natStr n ≠ [] := natStrAux_ne_nil n n

theorem natStr_length_le {n k : Nat} (hk : n < 10 ^ k) (h1 : 1 ≤ k) :
    (natStr n).length ≤ k := by
  have haux : ∀ fuel m j : Nat, m < fuel → m < 10 ^ j → 1 ≤ j →
      (natStrAux fuel m).length ≤ j := by
    intro fuel
    induction fuel with
    | zero => intro m j h _ _; omega
    | succ fuel ih =>
      intro m j h hj h1j
      by_cases h10 : m < 10
      · rw [natStrAux, if_pos h10]
        simpa using h1j
      · rw [natStrAux, if_neg h10]
        rw [List.length_append, List.length_singleton]
        have hj2 : 2 ≤ j := by
          rcases Nat.lt_or_ge j 2 with hlt | hge
          · have hj1 : j = 1 := by omega
            subst hj1
            norm_num at hj
            omega
          · exact hge
        have hdiv : m / 10 < 10 ^ (j - 1) := by
          rw [Nat.div_lt_iff_lt_mul (by omega : (0 : Nat) < 10)]
          calc m < 10 ^ j := hj
            _ = 10 ^ (j - 1) * 10 := by rw [← pow_succ]; congr 1; omega
        have := ih (m / 10) (j - 1) (by omega) hdiv (by omega)
        omega
  exact haux (n + 1) n k (by omega) hk h1

theorem natStr_length_ge {n k : Nat} (hk : 10 ^ k ≤ n) :
    k + 1 ≤ (natStr n).length := by
  have haux : ∀ fuel m j : Nat, m < fuel → 10 ^ j ≤ m →
      j + 1 ≤ (natStrAux fuel m).length := by
    intro fuel
    induction fuel with
    | zero => intro m j h _; omega
    | succ fuel ih =>
      intro m j h hj
      by_cases h10 : m < 10
      · have hj0 : j = 0 := by
          by_contra hc
          have h10le : 10 ≤ 10 ^ j := by
            calc 10 = 10 ^ 1 := (pow_one 10).symm
              _ ≤ 10 ^ j := Nat.pow_le_pow_right (by omega) (by omega)
          omega
        subst hj0
        rw [natStrAux, if_pos h10]
        simp
      · rw [natStrAux, if_neg h10]
        rw [List.length_append, List.length_singleton]
        rcases Nat.eq_zero_or_pos j with hj0 | hjpos
        · omega
        · have hdiv : 10 ^ (j - 1) ≤ m / 10 := by
            rw [Nat.le_div_iff_mul_le (by omega : (0 : Nat) < 10)]
            calc 10 ^ (j - 1) * 10 = 10 ^ j := by rw [← pow_succ]; congr 1; omega
              _ ≤ m := hj
          have := ih (m / 10) (j - 1) (by omega) hdiv
          omega
  exact haux (n + 1) n k (by omega) hk

theorem digitsVal_lt : ∀ cs : List Char, cs.all isDigitChar = true →
    ∀ acc, digitsVal acc cs < (acc + 1) * 10 ^ cs.length
  | [], _, acc => by simp [digitsVal]
  | c :: cs, h, acc => by
    rw [List.all_cons, Bool.and_eq_true] at h
    have hc := toNat_of_isDigitChar h.1
    have ih := digitsVal_lt cs h.2 (acc * 10 + (c.toNat - 48))
    show digitsVal (acc * 10 + (c.toNat - 48)) cs < (acc + 1) * 10 ^ ((c :: cs).length)
    calc digitsVal (acc * 10 + (c.toNat - 48)) cs
        < (acc * 10 + (c.toNat - 48) + 1) * 10 ^ cs.length := ih
      _ ≤ ((acc + 1) * 10) * 10 ^ cs.length :=
          Nat.mul_le_mul_right _ (by omega)
      _ = (acc + 1) * 10 ^ ((c :: cs).length) := by
          rw [List.length_cons, pow_succ]
          ring

theorem digitsVal_replicate_zero (k : Nat) : digitsVal 0 (List.replicate k '0') = 0 := by
  induction k with
  | zero => rfl
  | succ k ih =>
    rw [List.replicate_succ]
    show digitsVal (0 * 10 + ('0'.toNat - 48)) (List.replicate k '0') = 0
    have hz : 0 * 10 + ('0'.toNat - 48) = 0 := by decide
    rw [hz]
    exact ih

theorem digitsVal_leftPad (w : Nat) (cs : List Char) :
    digitsVal 0 (leftPad w cs) = digitsVal 0 cs := by
  rw [leftPad, digitsVal, List.foldl_append]
  show digitsVal (digitsVal 0 (List.replicate (w - cs.length) '0')) cs = digitsVal 0 cs
  rw [digitsVal_replicate_zero]

theorem leftPad_length (w : Nat) (cs : List Char) :
    (leftPad w cs).length = max w cs.length := by
  simp [leftPad]
  omega

theorem leftPad_all_digits {w : Nat} {cs : List Char} (h : cs.all isDigitChar = true) :
    (leftPad w cs).all isDigitChar = true := by
  have hz : (List.replicate (w - cs.length) '0').all isDigitChar = true := by
    rw [List.all_eq_true]
    intro c hc
    rw [List.mem_replicate] at hc
    rw [hc.2]
    decide
  simp [leftPad, List.all_append, hz, h]

/-! ## Lemmas about the greedy digit scanner -/

theorem scanNumAux_append : ∀ ds : List Char, ds.all isDigitChar = true →
    ∀ (maxW acc k : Nat) (rest : List Char), ds.length ≤ maxW → noDigitHead rest = true →
    scanNumAux maxW acc k (ds ++ rest) = (digitsVal acc ds, k + ds.length, rest)
  | [], _, maxW, acc, k, rest, _, hrest => by
    cases maxW with
    | zero => simp [scanNumAux, digitsVal]
    | succ m =>
      cases rest with
      | nil => simp [scanNumAux, digitsVal]
      | cons c t =>
        have hc : isDigitChar c = false := by
          have := hrest
          rw [noDigitHead] at this
          rwa [Bool.not_eq_true'] at this
        simp [scanNumAux, hc, digitsVal]
  | c :: ds, h, maxW, acc, k, rest, hlen, hrest => by
    rw [List.all_cons, Bool.and_eq_true] at h
    cases maxW with
    | zero => simp at hlen
    | succ m =>
      rw [List.cons_append, scanNumAux, if_pos h.1]
      have hlen2 : ds.length ≤ m := by
        rw [List.length_cons] at hlen
        omega
      rw [scanNumAux_append ds h.2 m (acc * 10 + (c.toNat - 48)) (k + 1) rest hlen2 hrest]
      have hk : k + 1 + ds.length = k + (c :: ds).length := by
        rw [List.length_cons]
        omega
      rw [hk]
      rfl

theorem scanNum_append {ds rest : List Char} (hne : ds ≠ [])
    (hd : ds.all isDigitChar = true) {maxW : Nat} (hlen : ds.length ≤ maxW)
    (hrest : noDigitHead rest = true) :
    scanNum 1 maxW (ds ++ rest) = some (digitsVal 0 ds, rest) := by
  rw [scanNum]
  rw [scanNumAux_append ds hd maxW 0 0 rest hlen hrest]
  have hpos : 1 ≤ ds.length := by
    cases ds with
    | nil => exact absurd rfl hne
    | cons c t => rw [List.length_cons]; omega
  have hnot : ¬ ((digitsVal 0 ds, 0 + ds.length, rest).2.1 < 1) := by
    show ¬ (0 + ds.length < 1)
    omega
  rw [if_neg hnot]

/-! ## Lemmas about `%Y-%m-%d` parsing of formatted dates -/

theorem head_isDigit_of_all {cs : List Char} {c : Char} (h : cs.all isDigitChar = true)
    (hc : cs.head? = some c) : isDigitChar c = true := by
  cases cs with
  | nil => simp at hc
  | cons a t =>
    rw [List.head?_cons, Option.some.injEq] at hc
    subst hc
    rw [List.all_cons, Bool.and_eq_true] at h
    exact h.1

theorem head?_append_of_ne_nil {a : List Char} (b : List Char) (h : a ≠ []) :
    (a ++ b).head? = a.head? := by
  cases a with
  | nil => exact absurd rfl h
  | cons c t => rfl

theorem parseYear_digits {A rest : List Char} (hne : A ≠ [])
    (hdig : A.all isDigitChar = true) (hlen : A.length ≤ 4)
    (hrest : noDigitHead rest = true) :
    parseYear (A ++ rest) = some ((digitsVal 0 A : Int), rest) := by
  obtain ⟨c, hc⟩ : ∃ c, A.head? = some c := by
    cases A with
    | nil => exact absurd rfl hne
    | cons c t => exact ⟨c, rfl⟩
  have hcdig := head_isDigit_of_all hdig hc
  have hhead : (A ++ rest).head? = some c := by rw [head?_append_of_ne_nil rest hne, hc]
  have hc1 : ¬ ((A ++ rest).head? = some '-') := by
    rw [hhead, Option.some.injEq]
    intro hcontra
    subst hcontra
    exact absurd hcdig (by decide)
  have hc2 : ¬ ((A ++ rest).head? = some '+') := by
    rw [hhead, Option.some.injEq]
    intro hcontra
    subst hcontra
    exact absurd hcdig (by decide)
  rw [parseYear, if_neg hc1, if_neg hc2, scanNum_append hne hdig hlen hrest]
  rfl

theorem parseYear_plus {A : List Char} (rest : List Char) (hne : A ≠ [])
    (hdig : A.all isDigitChar = true) (hrest : noDigitHead rest = true) :
    parseYear (('+' :: A) ++ rest) = some ((digitsVal 0 A : Int), rest) := by
  rw [List.cons_append, parseYear]
  rw [if_neg (by simp : ¬ (('+' :: (A ++ rest)).head? = some '-'))]
  rw [if_pos (by simp : ('+' :: (A ++ rest)).head? = some '+')]
  have hlen : A.length ≤ (A ++ rest).length := by
    simp
  simp only [List.tail_cons]
  rw [scanNum_append hne hdig hlen hrest]
  rfl

theorem parseYear_minus {A : List Char} (rest : List Char) (hne : A ≠ [])
    (hdig : A.all isDigitChar = true) (hrest : noDigitHead rest = true) :
    parseYear (('-' :: A) ++ rest) = some (-(digitsVal 0 A : Int), rest) := by
  rw [List.cons_append, parseYear]
  rw [if_pos (by simp : ('-' :: (A ++ rest)).head? = some '-')]
  have hlen : A.length ≤ (A ++ rest).length := by
    simp
  simp only [List.tail_cons]
  rw [scanNum_append hne hdig hlen hrest]
  rfl

theorem noDigitHead_cons_dash (t : List Char) : noDigitHead ('-' :: t) = true := rfl

theorem leftPad4_ne_nil (cs : List Char) : leftPad 4 cs ≠ [] := by
  intro h
  have hl := congrArg List.length h
  rw [leftPad_length] at hl
  simp at hl

theorem parseYear_formatYear (y : Int) {rest : List Char} (hrest : noDigitHead rest = true) :
    parseYear (formatYear y ++ rest) = some (y, rest) := by
  by_cases h1 : 0 ≤ y ∧ y < 10000
  · rw [formatYear, if_pos h1]
    have hA : (leftPad 4 (natStr y.toNat)).all isDigitChar = true :=
      leftPad_all_digits (natStr_all_digits _)
    have hlen : (leftPad 4 (natStr y.toNat)).length = 4 := by
      rw [leftPad_length]
      have hv : y.toNat < 10 ^ 4 := by
        have h4 : (10 : Nat) ^ 4 = 10000 := by norm_num
        omega
      have := natStr_length_le hv (by omega)
      omega
    rw [parseYear_digits (leftPad4_ne_nil _) hA (le_of_eq hlen) hrest]
    rw [digitsVal_leftPad, digitsVal_natStr, Int.toNat_of_nonneg h1.1]
  · by_cases h2 : 0 ≤ y
    · rw [formatYear, if_neg h1, if_pos h2]
      have hA : (leftPad 4 (natStr y.toNat)).all isDigitChar = true :=
        leftPad_all_digits (natStr_all_digits _)
      rw [parseYear_plus rest (leftPad4_ne_nil _) hA hrest]
      rw [digitsVal_leftPad, digitsVal_natStr, Int.toNat_of_nonneg h2]
    · rw [formatYear, if_neg h1, if_neg h2]
      have hA : (leftPad 4 (natStr (-y).toNat)).all isDigitChar = true :=
        leftPad_all_digits (natStr_all_digits _)
      rw [parseYear_minus rest (leftPad4_ne_nil _) hA hrest]
      rw [digitsVal_leftPad, digitsVal_natStr]
      have hy : -(((-y).toNat : Int)) = y := by omega
      rw [hy]

/-! ## Lemmas about the calendar tables -/

theorem daysInMonth_le_31 (y : Int) : ∀ m : Nat, daysInMonth y m ≤ 31
  | 0 => by show (0 : Nat) ≤ 31; omega
  | 1 => by show (31 : Nat) ≤ 31; omega
  | 2 => by
    show (if isLeapYear y then 29 else 28) ≤ 31
    split <;> omega
  | 3 => by show (31 : Nat) ≤ 31; omega
  | 4 => by show (30 : Nat) ≤ 31; omega
  | 5 => by show (31 : Nat) ≤ 31; omega
  | 6 => by show (30 : Nat) ≤ 31; omega
  | 7 => by show (31 : Nat) ≤ 31; omega
  | 8 => by show (31 : Nat) ≤ 31; omega
  | 9 => by show (30 : Nat) ≤ 31; omega
  | 10 => by show (31 : Nat) ≤ 31; omega
  | 11 => by show (30 : Nat) ≤ 31; omega
  | 12 => by show (31 : Nat) ≤ 31; omega
  | _ + 13 => by show (0 : Nat) ≤ 31; omega

theorem one_le_daysInMonth (y : Int) : ∀ m : Nat, 1 ≤ m → m ≤ 12 → 1 ≤ daysInMonth y m
  | 0, h, _ => by omega
  | 1, _, _ => by show (1 : Nat) ≤ 31; omega
  | 2, _, _ => by
    show (1 : Nat) ≤ if isLeapYear y then 29 else 28
    split <;> omega
  | 3, _, _ => by show (1 : Nat) ≤ 31; omega
  | 4, _, _ => by show (1 : Nat) ≤ 30; omega
  | 5, _, _ => by show (1 : Nat) ≤ 31; omega
  | 6, _, _ => by show (1 : Nat) ≤ 30; omega
  | 7, _, _ => by show (1 : Nat) ≤ 31; omega
  | 8, _, _ => by show (1 : Nat) ≤ 31; omega
  | 9, _, _ => by show (1 : Nat) ≤ 30; omega
  | 10, _, _ => by show (1 : Nat) ≤ 31; omega
  | 11, _, _ => by show (1 : Nat) ≤ 30; omega
  | 12, _, _ => by show (1 : Nat) ≤ 31; omega
  | n + 13, _, h => by omega

/-! ## The `%Y-%m-%d` round trip -/

theorem parseDate_formatDate {d : NaiveDate} (hv : d.isValid = true) :
    parseDate (formatDate d) = some d := by
  have hvv : 1 ≤ d.month ∧ d.month ≤ 12 ∧ 1 ≤ d.day ∧ d.day ≤ daysInMonth d.year d.month := by
    rw [NaiveDate.isValid, decide_eq_true_eq] at hv
    exact hv
  have hm100 : d.month < 10 ^ 2 := by
    have h2 : (10 : Nat) ^ 2 = 100 := by norm_num
    omega
  have hd100 : d.day < 10 ^ 2 := by
    have h31 := daysInMonth_le_31 d.year d.month
    have h2 : (10 : Nat) ^ 2 = 100 := by norm_num
    omega
  have hMdig : (leftPad 2 (natStr d.month)).all isDigitChar = true :=
    leftPad_all_digits (natStr_all_digits _)
  have hDdig : (leftPad 2 (natStr d.day)).all isDigitChar = true :=
    leftPad_all_digits (natStr_all_digits _)
  have hMlen : (leftPad 2 (natStr d.month)).length = 2 := by
    rw [leftPad_length]
    have := natStr_length_le hm100 (by omega)
    omega
  have hDlen : (leftPad 2 (natStr d.day)).length = 2 := by
    rw [leftPad_length]
    have := natStr_length_le hd100 (by omega)
    omega
  have hMne : leftPad 2 (natStr d.month) ≠ [] := by
    intro h
    rw [h] at hMlen
    simp at hMlen
  have hDne : leftPad 2 (natStr d.day) ≠ [] := by
    intro h
    rw [h] at hDlen
    simp at hDlen
  have hshape : formatDate d =
      formatYear d.year ++
        ('-' :: (leftPad 2 (natStr d.month) ++ ('-' :: leftPad 2 (natStr d.day)))) := by
    rw [formatDate]
    simp [List.append_assoc]
  have h1 : parseYear (formatYear d.year ++
      ('-' :: (leftPad 2 (natStr d.month) ++ ('-' :: leftPad 2 (natStr d.day))))) =
      some (d.year, '-' :: (leftPad 2 (natStr d.month) ++ ('-' :: leftPad 2 (natStr d.day)))) :=
    parseYear_formatYear d.year (noDigitHead_cons_dash _)
  have h3 : scanNum 1 2 (leftPad 2 (natStr d.month) ++ ('-' :: leftPad 2 (natStr d.day))) =
      some (d.month, '-' :: leftPad 2 (natStr d.day)) := by
    rw [scanNum_append hMne hMdig (by omega) (noDigitHead_cons_dash _)]
    rw [digitsVal_leftPad, digitsVal_natStr]
  have h5 : scanNum 1 2 (leftPad 2 (natStr d.day)) = some (d.day, []) := by
    have h5a : scanNum 1 2 (leftPad 2 (natStr d.day) ++ []) = some (digitsVal 0 (leftPad 2 (natStr d.day)), []) :=
      scanNum_append hDne hDdig (by omega) (by decide)
    rw [List.append_nil] at h5a
    rw [h5a, digitsVal_leftPad, digitsVal_natStr]
  have h6 : from_ymd_opt d.year d.month d.day = some d := by
    have he : NaiveDate.mk d.year d.month d.day = d := rfl
    rw [from_ymd_opt, he, if_pos hv]
  rw [hshape, parseDate, h1]
  simp only [expectDash, h3, h5, h6]
  rfl

theorem formatYear_length_ge (y : Int) : 4 ≤ (formatYear y).length := by
  rw [formatYear]
  split
  · rw [leftPad_length]
    omega
  · split
    · rw [List.length_cons, leftPad_length]
      omega
    · rw [List.length_cons, leftPad_length]
      omega

theorem formatDate_length_ge (d : NaiveDate) : 10 ≤ (formatDate d).length := by
  rw [formatDate]
  have hy := formatYear_length_ge d.year
  simp [List.length_append, leftPad_length]
  omega

theorem formatDate_ne_now (d : NaiveDate) : formatDate d ≠ ("now").toList := by
  intro h
  have hl := congrArg List.length h
  have h3 : (("now").toList).length = 3 := rfl
  have h10 := formatDate_length_ge d
  omega

theorem from_api_str_formatDate {d : NaiveDate} (hv : d.isValid = true) :
    GameDate.from_api_str (formatDate d) = some (GameDate.Date d) := by
  rw [GameDate.from_api_str, if_neg (formatDate_ne_now d), parseDate_formatDate hv]
  rfl

/-! ## Lemmas about list shapes -/

theorem exists_len_two {cs : List Char} (h : cs.length = 2) : ∃ a b, cs = [a, b] := by
  rcases cs with _ | ⟨a, _ | ⟨b, _ | ⟨c, t⟩⟩⟩
  · exact absurd h (by simp)
  · exact absurd h (by simp)
  · exact ⟨a, b, rfl⟩
  · rw [List.length_cons, List.length_cons, List.length_cons] at h
    omega

theorem exists_len_four {cs : List Char} (h : cs.length = 4) :
    ∃ a b c e, cs = [a, b, c, e] := by
  rcases cs with _ | ⟨a, _ | ⟨b, _ | ⟨c, _ | ⟨e, _ | ⟨f, t⟩⟩⟩⟩⟩
  · exact absurd h (by simp)
  · exact absurd h (by simp)
  · exact absurd h (by simp)
  · exact absurd h (by simp)
  · exact ⟨a, b, c, e, rfl⟩
  · rw [List.length_cons, List.length_cons, List.length_cons, List.length_cons,
      List.length_cons] at h
    omega

/-! ## Lemmas about UTF-8 byte lengths and byte slicing -/

theorem charLen_pos (c : Char) : 1 ≤ charLen c := by
  rw [charLen]
  split
  · omega
  · split
    · omega
    · split <;> omega

theorem charLen_ascii {c : Char} (h : c.toNat < 128) : charLen c = 1 := by
  rw [charLen, if_pos h]

theorem isDigitChar_ascii {c : Char} (h : isDigitChar c = true) : c.toNat < 128 := by
  have := toNat_of_isDigitChar h
  omega

theorem utf8Len_nil : utf8Len [] = 0 := rfl

theorem utf8Len_cons (c : Char) (cs : List Char) :
    utf8Len (c :: cs) = charLen c + utf8Len cs := by
  simp [utf8Len]

theorem utf8Len_append (a b : List Char) :
    utf8Len (a ++ b) = utf8Len a + utf8Len b := by
  simp [utf8Len]

theorem utf8Len_ascii {cs : List Char} (h : ∀ c ∈ cs, c.toNat < 128) :
    utf8Len cs = cs.length := by
  induction cs with
  | nil => rfl
  | cons c t ih =>
    rw [utf8Len_cons, charLen_ascii (h c (List.mem_cons_self c t)), List.length_cons,
      ih (fun x hx => h x (List.mem_cons_of_mem c hx))]
    omega

theorem utf8Len_of_all_digits {cs : List Char} (h : cs.all isDigitChar = true) :
    utf8Len cs = cs.length := by
  apply utf8Len_ascii
  intro c hc
  rw [List.all_eq_true] at h
  exact isDigitChar_ascii (h c hc)

theorem splitAtByte_sound : ∀ (cs : List Char) (n : Nat) (a b : List Char),
    splitAtByte n cs = some (a, b) → cs = a ++ b ∧ utf8Len a = n := by
  intro cs
  induction cs with
  | nil =>
    intro n a b h
    cases n with
    | zero =>
      rw [splitAtByte, Option.some.injEq, Prod.mk.injEq] at h
      rw [← h.1, ← h.2]
      exact ⟨rfl, rfl⟩
    | succ m =>
      rw [splitAtByte] at h
      exact absurd h (by simp)
  | cons c t ih =>
    intro n a b h
    cases n with
    | zero =>
      rw [splitAtByte, Option.some.injEq, Prod.mk.injEq] at h
      rw [← h.1, ← h.2]
      exact ⟨rfl, rfl⟩
    | succ m =>
      rw [splitAtByte] at h
      by_cases hcl : charLen c ≤ m + 1
      · rw [if_pos hcl] at h
        cases hsp : splitAtByte (m + 1 - charLen c) t with
        | none =>
          rw [hsp] at h
          exact absurd h (by simp)
        | some p =>
          rw [hsp, Option.map_some', Option.some.injEq, Prod.mk.injEq] at h
          obtain ⟨hp1, hp2⟩ := ih (m + 1 - charLen c) p.1 p.2 (by rw [hsp])
          constructor
          · rw [← h.1, ← h.2, List.cons_append, ← hp1]
          · rw [← h.1, utf8Len_cons, hp2]
            omega
      · rw [if_neg hcl] at h
        exact absurd h (by simp)

theorem splitAtByte_complete : ∀ a b : List Char,
    splitAtByte (utf8Len a) (a ++ b) = some (a, b)
  | [], b => by rw [utf8Len_nil, List.nil_append, splitAtByte]
  | c :: t, b => by
    have hpos := charLen_pos c
    have hlen : utf8Len (c :: t) = charLen c + utf8Len t := utf8Len_cons c t
    obtain ⟨m, hm⟩ : ∃ m, utf8Len (c :: t) = m + 1 := ⟨utf8Len (c :: t) - 1, by omega⟩
    rw [hm, List.cons_append, splitAtByte]
    rw [if_pos (by omega : charLen c ≤ m + 1)]
    have hsub : m + 1 - charLen c = utf8Len t := by omega
    rw [hsub, splitAtByte_complete t b]
    rfl

theorem splitAtByte_eq_none_iff (n : Nat) (cs : List Char) :
    splitAtByte n cs = none ↔ ∀ a b, cs = a ++ b → utf8Len a ≠ n := by
  constructor
  · intro h a b hab hlen
    rw [hab, ← hlen, splitAtByte_complete] at h
    exact absurd h (by simp)
  · intro h
    cases hsp : splitAtByte n cs with
    | none => rfl
    | some p =>
      obtain ⟨hab, hlen⟩ := splitAtByte_sound cs n p.1 p.2 (by rw [hsp])
      exact absurd hlen (h p.1 p.2 hab)

/-! ## Lemmas about `u16` parsing -/

theorem u16ParseDigits_eq_some {ds : List Char} {v : Nat} :
    u16ParseDigits ds = some v ↔
      ds ≠ [] ∧ ds.all isDigitChar = true ∧ digitsVal 0 ds = v ∧ v < 65536 := by
  rw [u16ParseDigits]
  rcases eq_or_ne ds [] with he | he
  · subst he
    simp
  · rw [if_neg (fun hcontra => he (List.isEmpty_iff.mp hcontra))]
    by_cases hd : ds.all isDigitChar
    · rw [if_pos hd]
      by_cases hlt : digitsVal 0 ds < 65536
      · rw [if_pos hlt]
        simp only [Option.some.injEq]
        constructor
        · intro hv
          exact ⟨he, hd, hv, by omega⟩
        · intro hv
          exact hv.2.2.1
      · rw [if_neg hlt]
        constructor
        · intro h
          exact absurd h (by simp)
        · intro ⟨_, _, hv, hb⟩
          omega
    · rw [if_neg hd]
      constructor
      · intro h
        exact absurd h (by simp)
      · intro ⟨_, hall, _, _⟩
        exact absurd hall hd


theorem u16Parse_eq_some {cs : List Char} {v : Nat} :
    u16Parse cs = some v ↔ PlusDigitsChunk cs v ∧ v < 65536 := by
  rw [u16Parse]
  by_cases hh : cs.head? = some '+'
  · obtain ⟨t, hcs⟩ : ∃ t, cs = '+' :: t := by
      cases cs with
      | nil => exact absurd hh (by simp)
      | cons c t =>
        rw [List.head?_cons, Option.some.injEq] at hh
        rw [hh]
        exact ⟨t, rfl⟩
    subst hcs
    rw [if_pos hh, List.tail_cons, u16ParseDigits_eq_some]
    constructor
    · intro ⟨h1, h2, h3, h4⟩
      exact ⟨Or.inr ⟨t, rfl, h1, h2, h3⟩, h4⟩
    · intro ⟨hch, h4⟩
      rcases hch with ⟨hne, hall, hval⟩ | ⟨t2, ht2, hne, hall, hval⟩
      · rw [List.all_cons, Bool.and_eq_true] at hall
        exact absurd hall.1 (by decide)
      · rw [List.cons.injEq] at ht2
        rw [ht2.2]
        exact ⟨hne, hall, hval, h4⟩
  · rw [if_neg hh, u16ParseDigits_eq_some]
    constructor
    · intro ⟨h1, h2, h3, h4⟩
      exact ⟨Or.inl ⟨h1, h2, h3⟩, h4⟩
    · intro ⟨hch, h4⟩
      rcases hch with ⟨hne, hall, hval⟩ | ⟨t2, ht2, hne, hall, hval⟩
      · exact ⟨hne, hall, hval, h4⟩
      · rw [ht2] at hh
        simp at hh

/-! ## Lemmas about URL joining -/

theorem dropLast_append_slash {base : List Char} (hb : base.getLast? = some '/') :
    base.dropLast ++ ['/'] = base := by
  induction base using List.reverseRecOn with
  | nil => simp at hb
  | append_singleton as a ih =>
    rw [List.getLast?_concat, Option.some.injEq] at hb
    rw [List.dropLast_concat, hb]

theorem join_url_eq (base resource : List Char) :
    join_url base resource =
      stripTrailingSlash base ++ '/' :: stripLeadingSlash resource := by
  rw [join_url, stripTrailingSlash, stripLeadingSlash]
  by_cases hb : base.getLast? = some '/'
  · obtain ⟨bs, hbase⟩ : ∃ bs, base = bs ++ ['/'] :=
      ⟨base.dropLast, (dropLast_append_slash hb).symm⟩
    subst hbase
    rw [if_pos hb, List.dropLast_concat]
    by_cases hr : resource.head? = some '/'
    · obtain ⟨t, hres⟩ : ∃ t, resource = '/' :: t := by
        cases resource with
        | nil => exact absurd hr (by simp)
        | cons c t =>
          rw [List.head?_cons, Option.some.injEq] at hr
          rw [hr]
          exact ⟨t, rfl⟩
      subst hres
      rw [if_pos ⟨hb, hr⟩, if_pos hr]
      simp
    · rw [if_neg (fun hc => hr hc.2), if_neg (fun hc => hc.1 hb), if_neg hr]
      simp
  · rw [if_neg hb]
    by_cases hr : resource.head? = some '/'
    · obtain ⟨t, hres⟩ : ∃ t, resource = '/' :: t := by
        cases resource with
        | nil => exact absurd hr (by simp)
        | cons c t =>
          rw [List.head?_cons, Option.some.injEq] at hr
          rw [hr]
          exact ⟨t, rfl⟩
      subst hres
      rw [if_neg (fun hc => hb hc.1), if_neg (fun hc => hc.2 hr), if_pos hr]
      rfl
    · rw [if_neg (fun hc => hb hc.1), if_pos ⟨hb, hr⟩, if_neg hr]

/-! ## Lemmas about day arithmetic -/

theorem isValid_mk_iff {y : Int} {m day : Nat} :
    (NaiveDate.mk y m day).isValid = true ↔
      1 ≤ m ∧ m ≤ 12 ∧ 1 ≤ day ∧ day ≤ daysInMonth y m := by
  rw [NaiveDate.isValid, decide_eq_true_eq]

theorem nextDay_valid {d : NaiveDate} (hv : d.isValid = true) : (nextDay d).isValid = true := by
  rw [NaiveDate.isValid, decide_eq_true_eq] at hv
  obtain ⟨h1, h2, h3, h4⟩ := hv
  rw [nextDay]
  by_cases hd : d.day < daysInMonth d.year d.month
  · rw [if_pos hd, isValid_mk_iff]
    exact ⟨h1, h2, by omega, by omega⟩
  · rw [if_neg hd]
    by_cases hm : d.month < 12
    · rw [if_pos hm, isValid_mk_iff]
      exact ⟨by omega, by omega, by omega,
        one_le_daysInMonth d.year (d.month + 1) (by omega) (by omega)⟩
    · rw [if_neg hm, isValid_mk_iff]
      refine ⟨by omega, by omega, by omega, ?_⟩
      show (1 : Nat) ≤ 31
      omega

theorem prevDay_valid {d : NaiveDate} (hv : d.isValid = true) : (prevDay d).isValid = true := by
  rw [NaiveDate.isValid, decide_eq_true_eq] at hv
  obtain ⟨h1, h2, h3, h4⟩ := hv
  rw [prevDay]
  by_cases hd : 1 < d.day
  · rw [if_pos hd, isValid_mk_iff]
    exact ⟨h1, h2, by omega, by omega⟩
  · rw [if_neg hd]
    by_cases hm : 1 < d.month
    · rw [if_pos hm, isValid_mk_iff]
      exact ⟨by omega, by omega,
        one_le_daysInMonth d.year (d.month - 1) (by omega) (by omega), le_refl _⟩
    · rw [if_neg hm, isValid_mk_iff]
      refine ⟨by omega, by omega, by omega, ?_⟩
      show (31 : Nat) ≤ 31
      omega

theorem iterDays_valid {f : NaiveDate → NaiveDate}
    (hf : ∀ d, d.isValid = true → (f d).isValid = true) :
    ∀ (n : Nat) (d : NaiveDate), d.isValid = true → (iterDays f n d).isValid = true
  | 0, _, hv => hv
  | n + 1, d, hv => iterDays_valid hf n (f d) (hf d hv)

theorem addDaysDate_valid {d : NaiveDate} (n : Int) (hv : d.isValid = true) :
    (addDaysDate d n).isValid = true := by
  cases n with
  | ofNat k => exact iterDays_valid (fun _ h => nextDay_valid h) k d hv
  | negSucc k => exact iterDays_valid (fun _ h => prevDay_valid h) (k + 1) d hv

/-! ## Lemmas about `Season` parsing and formatting -/

theorem u16Parse_all_digits {ds : List Char} (hne : ds ≠ [])
    (hd : ds.all isDigitChar = true) (hlt : digitsVal 0 ds < 65536) :
    u16Parse ds = some (digitsVal 0 ds) :=
  u16Parse_eq_some.mpr ⟨Or.inl ⟨hne, hd, rfl⟩, hlt⟩

theorem chunk_val_lt {a : List Char} {v : Nat} (hch : PlusDigitsChunk a v)
    (hlen : utf8Len a = 4) : v < 65536 := by
  rcases hch with ⟨hne, hall, hval⟩ | ⟨t, hat, hne, hall, hval⟩
  · have hl : a.length = 4 := by rw [← utf8Len_of_all_digits hall, hlen]
    have hb := digitsVal_lt a hall 0
    rw [hl] at hb
    norm_num at hb
    omega
  · subst hat
    have hc : charLen '+' = 1 := rfl
    rw [utf8Len_cons] at hlen
    have hlt3 : utf8Len t = 3 := by omega
    have hl : t.length = 3 := by rw [← utf8Len_of_all_digits hall, hlt3]
    have hb := digitsVal_lt t hall 0
    rw [hl] at hb
    norm_num at hb
    omega

theorem from_api_str_eight_digits {s : List Char} (hlen : s.length = 8)
    (hdig : s.all isDigitChar = true) :
    Season.from_api_str s =
      .ok (if digitsVal 0 (s.drop 4) = digitsVal 0 (s.take 4) + 1
           then some ⟨digitsVal 0 (s.take 4)⟩ else none) := by
  have hutf : utf8Len s = 8 := by rw [utf8Len_of_all_digits hdig, hlen]
  have htakedig : (s.take 4).all isDigitChar = true := by
    rw [List.all_eq_true] at hdig ⊢
    intro c hc
    exact hdig c (List.mem_of_mem_take hc)
  have hdropdig : (s.drop 4).all isDigitChar = true := by
    rw [List.all_eq_true] at hdig ⊢
    intro c hc
    exact hdig c (List.mem_of_mem_drop hc)
  have htlen : (s.take 4).length = 4 := by
    rw [List.length_take]
    omega
  have hdlen : (s.drop 4).length = 4 := by
    rw [List.length_drop]
    omega
  have hbound : ∀ t : List Char, t.all isDigitChar = true → t.length = 4 →
      digitsVal 0 t < 65536 := by
    intro t ht hl
    have hb := digitsVal_lt t ht 0
    rw [hl] at hb
    norm_num at hb
    omega
  have hsplit : splitAtByte 4 s = some (s.take 4, s.drop 4) := by
    have hu : utf8Len (s.take 4) = 4 := by rw [utf8Len_of_all_digits htakedig, htlen]
    have hcomp := splitAtByte_complete (s.take 4) (s.drop 4)
    rw [hu, List.take_append_drop] at hcomp
    exact hcomp
  have htne : s.take 4 ≠ [] := by
    intro hc
    rw [hc] at htlen
    simp at htlen
  have hdne : s.drop 4 ≠ [] := by
    intro hc
    rw [hc] at hdlen
    simp at hdlen
  have hta : u16Parse (s.take 4) = some (digitsVal 0 (s.take 4)) :=
    u16Parse_all_digits htne htakedig (hbound _ htakedig htlen)
  have htb : u16Parse (s.drop 4) = some (digitsVal 0 (s.drop 4)) :=
    u16Parse_all_digits hdne hdropdig (hbound _ hdropdig hdlen)
  rw [Season.from_api_str, if_neg (fun hc => hc hutf)]
  rw [hsplit]
  show Except.ok (seasonOfParts (u16Parse (s.take 4)) (u16Parse (s.drop 4))) = _
  rw [hta, htb]
  rfl

theorem season_from_api_str_error_iff (s : List Char) :
    Season.from_api_str s = .error () ↔
      utf8Len s = 8 ∧ ∀ a b, s = a ++ b → utf8Len a ≠ 4 := by
  rw [Season.from_api_str]
  by_cases hlen : utf8Len s ≠ 8
  · rw [if_pos hlen]
    constructor
    · intro h
      exact absurd h (by simp)
    · intro ⟨h8, _⟩
      exact absurd h8 hlen
  · rw [if_neg hlen]
    push_neg at hlen
    cases hsp : splitAtByte 4 s with
    | none =>
      constructor
      · intro _
        exact ⟨hlen, (splitAtByte_eq_none_iff 4 s).mp hsp⟩
      · intro _
        rfl
    | some p =>
      obtain ⟨a, b⟩ := p
      constructor
      · intro h
        have h2 : (Except.ok (seasonOfParts (u16Parse a) (u16Parse b)) :
            Except Unit (Option Season)) = Except.error () := h
        exact absurd h2 (by simp)
      · intro ⟨_, hnone⟩
        obtain ⟨hab, hlen4⟩ := splitAtByte_sound s 4 a b (by rw [hsp])
        exact absurd hlen4 (hnone a b hab)

theorem season_from_api_str_ok_some_iff (s : List Char) (y : Nat) :
    Season.from_api_str s = .ok (some ⟨y⟩) ↔
      ∃ a b, s = a ++ b ∧ utf8Len a = 4 ∧ utf8Len b = 4 ∧
        PlusDigitsChunk a y ∧ PlusDigitsChunk b (y + 1) := by
  constructor
  · intro h
    rw [Season.from_api_str] at h
    by_cases hlen : utf8Len s ≠ 8
    · rw [if_pos hlen] at h
      exact absurd h (by simp)
    · rw [if_neg hlen] at h
      push_neg at hlen
      cases hsp : splitAtByte 4 s with
      | none =>
        rw [hsp] at h
        have h2 : (Except.error () : Except Unit (Option Season)) =
            Except.ok (some ⟨y⟩) := h
        exact absurd h2 (by simp)
      | some p =>
        obtain ⟨a, b⟩ := p
        rw [hsp] at h
        obtain ⟨hab, ha4⟩ := splitAtByte_sound s 4 a b (by rw [hsp])
        have hb4 : utf8Len b = 4 := by
          rw [hab, utf8Len_append] at hlen
          omega
        have h2 : (Except.ok (seasonOfParts (u16Parse a) (u16Parse b)) :
            Except Unit (Option Season)) = Except.ok (some ⟨y⟩) := h
        rw [Except.ok.injEq] at h2
        cases hpa : u16Parse a with
        | none =>
          rw [hpa] at h2
          simp [seasonOfParts] at h2
        | some sy =>
          cases hpb : u16Parse b with
          | none =>
            rw [hpa, hpb] at h2
            simp [seasonOfParts] at h2
          | some ey =>
            rw [hpa, hpb] at h2
            simp only [seasonOfParts] at h2
            by_cases heq : ey = sy + 1
            · rw [if_pos heq] at h2
              rw [Option.some.injEq, Season.mk.injEq] at h2
              subst h2
              obtain ⟨hcha, _⟩ := u16Parse_eq_some.mp hpa
              obtain ⟨hchb, _⟩ := u16Parse_eq_some.mp hpb
              rw [heq] at hchb
              exact ⟨a, b, hab, ha4, hb4, hcha, hchb⟩
            · rw [if_neg heq] at h2
              exact absurd h2 (by simp)
  · intro ⟨a, b, hab, ha4, hb4, hcha, hchb⟩
    have hy1 : y < 65536 := chunk_val_lt hcha ha4
    have hy2 : y + 1 < 65536 := chunk_val_lt hchb hb4
    have hpa : u16Parse a = some y := u16Parse_eq_some.mpr ⟨hcha, hy1⟩
    have hpb : u16Parse b = some (y + 1) := u16Parse_eq_some.mpr ⟨hchb, hy2⟩
    have hutf : utf8Len s = 8 := by
      rw [hab, utf8Len_append, ha4, hb4]
    have hsplit : splitAtByte 4 s = some (a, b) := by
      rw [hab, ← ha4]
      exact splitAtByte_complete a b
    rw [Season.from_api_str, if_neg (fun hc => hc hutf), hsplit]
    show Except.ok (seasonOfParts (u16Parse a) (u16Parse b)) = _
    rw [hpa, hpb]
    simp [seasonOfParts]

theorem season_to_api_all_digits (s : Season) :
    (Season.to_api_string s).all isDigitChar = true := by
  rw [Season.to_api_string, List.all_append, Bool.and_eq_true]
  exact ⟨natStr_all_digits _, natStr_all_digits _⟩

theorem season_from_api_str_wrong_len {s : List Char}
    (hdig : s.all isDigitChar = true) (hlen : s.length ≠ 8) :
    Season.from_api_str s = .ok none := by
  rw [Season.from_api_str, if_pos]
  rw [utf8Len_of_all_digits hdig]
  exact hlen

theorem season_roundtrip_mid {y : Nat} (h1 : 1000 ≤ y) (h2 : y ≤ 9998) :
    Season.from_api_str (Season.to_api_string ⟨y⟩) = .ok (some ⟨y⟩) := by
  have hend : Season.end_year ⟨y⟩ = y + 1 := by
    show (y + 1) % 65536 = y + 1
    omega
  have h43 : (10 : Nat) ^ 4 = 10000 := by norm_num
  have h33 : (10 : Nat) ^ 3 = 1000 := by norm_num
  have hys : (natStr y).length = 4 := by
    have hle := natStr_length_le (show y < 10 ^ 4 by omega) (by omega)
    have hge := natStr_length_ge (show 10 ^ 3 ≤ y by omega)
    omega
  have hy1s : (natStr (y + 1)).length = 4 := by
    have hle := natStr_length_le (show y + 1 < 10 ^ 4 by omega) (by omega)
    have hge := natStr_length_ge (show 10 ^ 3 ≤ y + 1 by omega)
    omega
  have hall : (natStr y ++ natStr (y + 1)).all isDigitChar = true := by
    rw [List.all_append, Bool.and_eq_true]
    exact ⟨natStr_all_digits _, natStr_all_digits _⟩
  have hlen8 : (natStr y ++ natStr (y + 1)).length = 8 := by
    rw [List.length_append, hys, hy1s]
  have hkey := from_api_str_eight_digits hlen8 hall
  have htake : (natStr y ++ natStr (y + 1)).take 4 = natStr y := by
    rw [← hys, List.take_left]
  have hdrop : (natStr y ++ natStr (y + 1)).drop 4 = natStr (y + 1) := by
    rw [← hys, List.drop_left]
  rw [htake, hdrop, digitsVal_natStr, digitsVal_natStr, if_pos rfl] at hkey
  have hsy : (Season.mk y).start_year = y := rfl
  rw [Season.to_api_string, hsy, hend]
  exact hkey

theorem season_to_api_length_lt {y : Nat} (h : y < 1000) :
    (Season.to_api_string ⟨y⟩).length < 8 := by
  have hend : Season.end_year ⟨y⟩ = y + 1 := by
    show (y + 1) % 65536 = y + 1
    omega
  have h43 : (10 : Nat) ^ 4 = 10000 := by norm_num
  have h33 : (10 : Nat) ^ 3 = 1000 := by norm_num
  have hsy : (Season.mk y).start_year = y := rfl
  rw [Season.to_api_string, hsy, hend, List.length_append]
  have hy3 : (natStr y).length ≤ 3 := natStr_length_le (show y < 10 ^ 3 by omega) (by omega)
  have hy14 : (natStr (y + 1)).length ≤ 4 :=
    natStr_length_le (show y + 1 < 10 ^ 4 by omega) (by omega)
  omega

theorem season_to_api_length_gt {y : Nat} (h1 : 9999 ≤ y) (h2 : y ≤ 65534) :
    8 < (Season.to_api_string ⟨y⟩).length := by
  have hend : Season.end_year ⟨y⟩ = y + 1 := by
    show (y + 1) % 65536 = y + 1
    omega
  have h43 : (10 : Nat) ^ 4 = 10000 := by norm_num
  have h33 : (10 : Nat) ^ 3 = 1000 := by norm_num
  have hsy : (Season.mk y).start_year = y := rfl
  rw [Season.to_api_string, hsy, hend, List.length_append]
  have ha := natStr_length_ge (show 10 ^ 3 ≤ y by omega)
  have hb := natStr_length_ge (show 10 ^ 4 ≤ y + 1 by omega)
  omega

/-! ## The `YYYY-MM-DD` shape of formatted four-digit years -/

theorem isYmdShape_formatDate {d : NaiveDate} (hv : d.isValid = true)
    (h0 : 0 ≤ d.year) (h1 : d.year < 10000) :
    isYmdShape (formatDate d) = true := by
  have hvv : 1 ≤ d.month ∧ d.month ≤ 12 ∧ 1 ≤ d.day ∧ d.day ≤ daysInMonth d.year d.month := by
    rw [NaiveDate.isValid, decide_eq_true_eq] at hv
    exact hv
  have hm100 : d.month < 10 ^ 2 := by
    have h2 : (10 : Nat) ^ 2 = 100 := by norm_num
    omega
  have hd100 : d.day < 10 ^ 2 := by
    have h31 := daysInMonth_le_31 d.year d.month
    have h2 : (10 : Nat) ^ 2 = 100 := by norm_num
    omega
  have hYdig : (leftPad 4 (natStr d.year.toNat)).all isDigitChar = true :=
    leftPad_all_digits (natStr_all_digits _)
  have hYlen : (leftPad 4 (natStr d.year.toNat)).length = 4 := by
    rw [leftPad_length]
    have hv4 : d.year.toNat < 10 ^ 4 := by
      have h4 : (10 : Nat) ^ 4 = 10000 := by norm_num
      omega
    have := natStr_length_le hv4 (by omega)
    omega
  have hMdig : (leftPad 2 (natStr d.month)).all isDigitChar = true :=
    leftPad_all_digits (natStr_all_digits _)
  have hMlen : (leftPad 2 (natStr d.month)).length = 2 := by
    rw [leftPad_length]
    have := natStr_length_le hm100 (by omega)
    omega
  have hDdig : (leftPad 2 (natStr d.day)).all isDigitChar = true :=
    leftPad_all_digits (natStr_all_digits _)
  have hDlen : (leftPad 2 (natStr d.day)).length = 2 := by
    rw [leftPad_length]
    have := natStr_length_le hd100 (by omega)
    omega
  obtain ⟨a, b, c, e, hY⟩ := exists_len_four hYlen
  obtain ⟨m1, m2, hM⟩ := exists_len_two hMlen
  obtain ⟨e1, e2, hD⟩ := exists_len_two hDlen
  have hYfmt : formatYear d.year = leftPad 4 (natStr d.year.toNat) := by
    rw [formatYear, if_pos ⟨h0, h1⟩]
  rw [hY] at hYdig
  rw [hM] at hMdig
  rw [hD] at hDdig
  simp only [List.all_cons, List.all_nil, Bool.and_eq_true, Bool.and_true] at hYdig hMdig hDdig
  rw [formatDate, hYfmt, hY, hM, hD]
  simp only [List.cons_append, List.nil_append, List.append_nil, List.singleton_append]
  simp [isYmdShape, hYdig.1, hYdig.2.1, hYdig.2.2.1, hYdig.2.2.2,
    hMdig.1, hMdig.2, hDdig.1, hDdig.2]

/-! ## The claims -/

/-- C1: `error_from_status` maps 404 to `ResourceNotFound`, 429 to
`RateLimitExceeded`, 400 to `BadRequest`, 401 to `Unauthorized`, every
code in 500..=599 to `ServerError`, and every other code (including 100,
300 and 600) to the generic `ApiError` kind; in every case the variant
carries the input status code unchanged and its message embeds the
request identifier. -/
theorem C1_error_from_status_classification (code : Nat) (url : List Char) :
    (code = 404 → error_from_status code url = .ResourceNotFound (requestMsg url) code) ∧
    (code = 429 → error_from_status code url = .RateLimitExceeded (requestMsg url) code) ∧
    (code = 400 → error_from_status code url = .BadRequest (requestMsg url) code) ∧
    (code = 401 → error_from_status code url = .Unauthorized (requestMsg url) code) ∧
    (500 ≤ code → code ≤ 599 →
      error_from_status code url = .ServerError (requestMsg url) code) ∧
    (code ≠ 404 → code ≠ 429 → code ≠ 400 → code ≠ 401 → ¬(500 ≤ code ∧ code ≤ 599) →
      error_from_status code url =
        .ApiError (("Unexpected error: ").toList ++ requestMsg url) code none) ∧
    (error_from_status code url).statusOf = some code ∧
    (∃ pre post, (error_from_status code url).messageOf = some (pre ++ url ++ post)) := by
  refine ⟨?_, ?_, ?_, ?_, ?_, ?_, ?_, ?_⟩
  · intro h
    subst h
    rfl
  · intro h
    subst h
    rfl
  · intro h
    subst h
    rfl
  · intro h
    subst h
    rfl
  · intro h5 h6
    simp only [error_from_status]
    rw [if_neg (by omega), if_neg (by omega), if_neg (by omega), if_neg (by omega),
      if_pos ⟨h5, h6⟩]
  · intro h1 h2 h3 h4 h5
    simp only [error_from_status]
    rw [if_neg h1, if_neg h2, if_neg h3, if_neg h4, if_neg h5]
  · simp only [error_from_status]
    split_ifs <;> rfl
  · simp only [error_from_status]
    split_ifs
    · exact ⟨("Request to ").toList, (" failed").toList, rfl⟩
    · exact ⟨("Request to ").toList, (" failed").toList, rfl⟩
    · exact ⟨("Request to ").toList, (" failed").toList, rfl⟩
    · exact ⟨("Request to ").toList, (" failed").toList, rfl⟩
    · exact ⟨("Request to ").toList, (" failed").toList, rfl⟩
    · exact ⟨("Unexpected error: ").toList ++ ("Request to ").toList, (" failed").toList,
        by simp [NHLApiError.messageOf, requestMsg, List.append_assoc]⟩

/-- Witness for C1: status 503 with resource "standings/now" classifies as
`ServerError` carrying 503. -/
theorem C1_error_from_status_classification_witness :
    error_from_status 503 (("standings/now").toList) =
      .ServerError (requestMsg (("standings/now").toList)) 503 :=
  (C1_error_from_status_classification 503
    (("standings/now").toList)).2.2.2.2.1 (by decide) (by decide)

/-- C2: in the dispatcher, a non-2xx response is never passed to the
decoder — for every decoder whatsoever the result is the classified error
built from the status and the resource identifier; and a 2xx response
whose body fails to decode surfaces the decode failure, never a success
value. -/
theorem C2_get_json_dispatch {B T : Type} (decode : B → Option T)
    (resp : Response B) (resource : List Char) :
    (statusIsSuccess resp.status = false →
      get_json decode resp resource = .error (error_from_status resp.status resource)) ∧
    (statusIsSuccess resp.status = true → decode resp.body = none →
      get_json decode resp resource = .error .RequestError ∧
      ∀ t, get_json decode resp resource ≠ .ok t) := by
  constructor
  · intro hfail
    rw [get_json, handle_response, if_neg (by rw [hfail]; simp)]
  · intro hok hdec
    have hred : get_json decode resp resource = Except.error NHLApiError.RequestError := by
      rw [get_json, handle_response, if_pos hok]
      show (match decode resp.body with
            | some t => (Except.ok t : Except NHLApiError T)
            | none => Except.error NHLApiError.RequestError) = _
      rw [hdec]
    refine ⟨hred, ?_⟩
    intro t hcontra
    rw [hred] at hcontra
    exact absurd hcontra (by simp)

/-- Witness for C2: a 404 response with a decoder that always fails is
classified, and a 200 response with a failing decoder surfaces the decode
error. -/
theorem C2_get_json_dispatch_witness :
    get_json (fun _ : Nat => (none : Option Nat)) ⟨404, 0⟩ (("missing").toList) =
      .error (error_from_status 404 (("missing").toList)) ∧
    get_json (fun _ : Nat => (none : Option Nat)) ⟨200, 0⟩ (("bad-json").toList) =
      .error .RequestError :=
  ⟨(C2_get_json_dispatch (fun _ => none) ⟨404, 0⟩ (("missing").toList)).1 (by decide),
   ((C2_get_json_dispatch (fun _ => none) ⟨200, 0⟩ (("bad-json").toList)).2
     (by decide) rfl).1⟩

/-- C3 counterexample: joining a base that does not end in '/' with the
empty resource appends a '/' — the base URL is not returned unchanged, so
the claimed `join(base, "") == base` fails. -/
theorem C3_join_url_counterexample :
    join_url (("a").toList) [] ≠ ("a").toList := by decide

/-- C3 amended: the joining step always equals the base with one trailing
slash removed, then a single separating '/', then the resource with one
leading slash removed (dropping one slash when both sides carry one,
inserting one when neither does); joining with the empty resource returns
the base unchanged exactly when the base ends in '/', and returns the base
with a '/' appended otherwise. -/
theorem C3_join_url_normalization (base resource : List Char) :
    join_url base resource =
      stripTrailingSlash base ++ '/' :: stripLeadingSlash resource ∧
    (base.getLast? = some '/' → join_url base [] = base) ∧
    (base.getLast? ≠ some '/' → join_url base [] = base ++ ['/']) := by
  refine ⟨join_url_eq base resource, ?_, ?_⟩
  · intro hb
    rw [join_url_eq, stripTrailingSlash, if_pos hb]
    show base.dropLast ++ ['/'] = base
    exact dropLast_append_slash hb
  · intro hb
    rw [join_url_eq, stripTrailingSlash, if_neg hb]
    rfl

/-- Witness for C3 at a base with and a base without a trailing slash. -/
theorem C3_join_url_normalization_witness :
    join_url (("https://api.nhle.com/").toList) [] = ("https://api.nhle.com/").toList ∧
    join_url (("https://api.nhle.com").toList) [] =
      ("https://api.nhle.com").toList ++ ['/'] :=
  ⟨(C3_join_url_normalization (("https://api.nhle.com/").toList) []).2.1 (by decide),
   (C3_join_url_normalization (("https://api.nhle.com").toList) []).2.2 (by decide)⟩

/-- C4 counterexample: 10000-01-01 is a valid calendar date, but chrono
formats it as "+10000-01-01" (explicit sign, five year digits), which is
not of the `YYYY-MM-DD` shape — so "formatting `Resolved(d)` always
yields `YYYY-MM-DD`" fails. -/
theorem C4_format_shape_counterexample :
    (NaiveDate.mk 10000 1 1).isValid = true ∧
    GameDate.to_api_string (GameDate.Date ⟨10000, 1, 1⟩) = ("+10000-01-01").toList ∧
    isYmdShape (GameDate.to_api_string (GameDate.Date ⟨10000, 1, 1⟩)) = false := by
  refine ⟨by decide, by decide, by decide⟩

/-- C4 amended: formatting `Now` yields exactly "now" and "now" parses to
`Now`; for every valid calendar date the format/parse round trip returns
the date unchanged; and formatting yields the `YYYY-MM-DD` shape for every
valid date whose year lies in 0..=9999 (outside that range chrono prints
an explicit sign, as the counterexample shows). -/
theorem C4_game_date_roundtrip :
    GameDate.to_api_string GameDate.Now = ("now").toList ∧
    GameDate.from_api_str (("now").toList) = some GameDate.Now ∧
    (∀ d : NaiveDate, d.isValid = true →
      GameDate.from_api_str (GameDate.to_api_string (GameDate.Date d)) =
        some (GameDate.Date d)) ∧
    (∀ d : NaiveDate, d.isValid = true → 0 ≤ d.year → d.year < 10000 →
      isYmdShape (GameDate.to_api_string (GameDate.Date d)) = true) := by
  refine ⟨rfl, rfl, ?_, ?_⟩
  · intro d hv
    exact from_api_str_formatDate hv
  · intro d hv h0 h1
    exact isYmdShape_formatDate hv h0 h1

/-- Witness for C4 at the date 2024-03-15. -/
theorem C4_game_date_roundtrip_witness :
    GameDate.from_api_str (GameDate.to_api_string (GameDate.Date ⟨2024, 3, 15⟩)) =
      some (GameDate.Date ⟨2024, 3, 15⟩) ∧
    isYmdShape (GameDate.to_api_string (GameDate.Date ⟨2024, 3, 15⟩)) = true :=
  ⟨C4_game_date_roundtrip.2.2.1 ⟨2024, 3, 15⟩ (by decide),
   C4_game_date_roundtrip.2.2.2 ⟨2024, 3, 15⟩ (by decide) (by decide) (by decide)⟩

/-- C5: `add_days` always returns a Resolved (`Date`) value; an
`Unresolved` receiver is first resolved to the local current date (the
explicit `today`), then the signed offset is applied with proleptic
Gregorian rollover, which preserves calendar validity; the documented
leap-year, non-leap-year and year-rollover examples hold. -/
theorem C5_add_days_resolved (today : NaiveDate) (g : GameDate) (n : Int) :
    (∃ d, GameDate.add_days today g n = GameDate.Date d) ∧
    GameDate.add_days today GameDate.Now n = GameDate.Date (addDaysDate today n) ∧
    GameDate.add_days today (GameDate.Date (g.as_date today)) n =
      GameDate.Date (addDaysDate (g.as_date today) n) ∧
    (∀ d : NaiveDate, d.isValid = true → (addDaysDate d n).isValid = true) ∧
    addDaysDate ⟨2024, 2, 28⟩ 1 = ⟨2024, 2, 29⟩ ∧
    addDaysDate ⟨2023, 2, 28⟩ 1 = ⟨2023, 3, 1⟩ ∧
    addDaysDate ⟨2024, 12, 30⟩ 5 = ⟨2025, 1, 4⟩ := by
  refine ⟨⟨addDaysDate (g.as_date today) n, rfl⟩, rfl, rfl,
    fun d hv => addDaysDate_valid n hv, by decide, by decide, by decide⟩

/-- Witness for C5: validity preservation at 2024-02-28 plus one day, and
resolution of `Now` at a concrete current date. -/
theorem C5_add_days_resolved_witness :
    (addDaysDate ⟨2024, 2, 28⟩ 1).isValid = true ∧
    GameDate.add_days ⟨2024, 10, 19⟩ GameDate.Now 7 =
      GameDate.Date (addDaysDate ⟨2024, 10, 19⟩ 7) :=
  ⟨(C5_add_days_resolved ⟨2024, 10, 19⟩ GameDate.Now 1).2.2.2.1 ⟨2024, 2, 28⟩ (by decide),
   (C5_add_days_resolved ⟨2024, 10, 19⟩ GameDate.Now 7).2.1⟩

/-- C6 counterexample: `add_days(Now, 0)` resolves the receiver and
returns a `Date` value, which differs from `Now` — the identity
`add_days(x, 0) == x` fails on the `Unresolved` variant. -/
theorem C6_identity_counterexample :
    GameDate.add_days ⟨2024, 1, 1⟩ GameDate.Now 0 ≠ GameDate.Now := by decide

/-- C6 amended: adding zero days is the identity on every Resolved
(`Date`) value; on the `Unresolved` variant it returns the current date as
a Resolved value instead of `Now`. -/
theorem C6_add_days_zero (today d : NaiveDate) :
    GameDate.add_days today (GameDate.Date d) 0 = GameDate.Date d ∧
    GameDate.add_days today GameDate.Now 0 = GameDate.Date today :=
  ⟨rfl, rfl⟩

/-- C7 counterexample: "+100+101" is 8 bytes long but is not 8 ASCII
digits, yet `Season::from_str` accepts it with start year 100, because
Rust's `u16` parser allows an optional leading '+' in each half. -/
theorem C7_season_parse_counterexample :
    (("+100+101").toList).all isDigitChar = false ∧
    Season.from_api_str (("+100+101").toList) = .ok (some ⟨100⟩) :=
  ⟨by decide, rfl⟩

/-- C7 amended: parsing succeeds with start year y exactly when the input
splits into two 4-byte halves, each consisting of ASCII digits optionally
preceded by one '+', with consecutive values; on 8-ASCII-digit strings
this is precisely the documented first-four/last-four digit condition;
parsing panics exactly on the 8-byte inputs whose byte 4 falls inside a
multi-byte character (e.g. "abcéabc") — all other inputs return a result,
with absence (`none`) for every other shape; formatting
`Season{start_year: 2023}` yields "20232024". -/
theorem C7_season_parse_characterization :
    (∀ (s : List Char) (y : Nat),
      Season.from_api_str s = .ok (some ⟨y⟩) ↔
        ∃ a b, s = a ++ b ∧ utf8Len a = 4 ∧ utf8Len b = 4 ∧
          PlusDigitsChunk a y ∧ PlusDigitsChunk b (y + 1)) ∧
    (∀ s : List Char, s.length = 8 → s.all isDigitChar = true →
      Season.from_api_str s =
        .ok (if digitsVal 0 (s.drop 4) = digitsVal 0 (s.take 4) + 1
             then some ⟨digitsVal 0 (s.take 4)⟩ else none)) ∧
    (∀ s : List Char,
      Season.from_api_str s = .error () ↔
        utf8Len s = 8 ∧ ∀ a b, s = a ++ b → utf8Len a ≠ 4) ∧
    Season.from_api_str (("abcéabc").toList) = .error () ∧
    Season.to_api_string ⟨2023⟩ = ("20232024").toList := by
  refine ⟨season_from_api_str_ok_some_iff, ?_, season_from_api_str_error_iff, rfl, rfl⟩
  intro s h1 h2
  exact from_api_str_eight_digits h1 h2

/-- Witness for C7: the 8-digit consecutive string "20232024" parses to
start year 2023 through the amended characterization. -/
theorem C7_season_parse_characterization_witness :
    Season.from_api_str (("20232024").toList) =
      .ok (if digitsVal 0 ((("20232024").toList).drop 4) =
              digitsVal 0 ((("20232024").toList).take 4) + 1
           then some ⟨digitsVal 0 ((("20232024").toList).take 4)⟩ else none) :=
  C7_season_parse_characterization.2.1 (("20232024").toList) (by decide) (by decide)

/-- C8: `base_url` is a total pure lookup sending each production
`Endpoint` variant to exactly the documented base URL, and every base URL
is non-empty and absolute (it extends "https://"). -/
theorem C8_base_url_table :
    Endpoint.base_url .ApiWebV1 = ("https://api-web.nhle.com/v1/").toList ∧
    Endpoint.base_url .ApiCore = ("https://api.nhle.com/").toList ∧
    Endpoint.base_url .ApiStats = ("https://api.nhle.com/stats/rest/").toList ∧
    Endpoint.base_url .SearchV1 = ("https://search.d3.nhle.com/api/v1/").toList ∧
    ∀ e : Endpoint, Endpoint.base_url e ≠ [] ∧
      ∃ rest, Endpoint.base_url e = ("https://").toList ++ rest := by
  refine ⟨rfl, rfl, rfl, rfl, ?_⟩
  intro e
  cases e with
  | ApiWebV1 => exact ⟨by decide, ("api-web.nhle.com/v1/").toList, by decide⟩
  | ApiCore => exact ⟨by decide, ("api.nhle.com/").toList, by decide⟩
  | ApiStats => exact ⟨by decide, ("api.nhle.com/stats/rest/").toList, by decide⟩
  | SearchV1 => exact ⟨by decide, ("search.d3.nhle.com/api/v1/").toList, by decide⟩

/-- C9 counterexample: at start_year 65535 the `u16` end year wraps around
to 0, so the formatted string is the 6-character "655350" — not more than
8 characters, refuting "start_year 9999 or above yields more than 8". -/
theorem C9_season_roundtrip_counterexample :
    Season.to_api_string ⟨65535⟩ = ("655350").toList ∧
    ¬ 8 < (Season.to_api_string ⟨65535⟩).length :=
  ⟨rfl, by decide⟩

/-- C9 amended: the format/parse round trip holds exactly for start years
1000..=9998; below 1000 the string is shorter than 8 characters, from 9999
to 65534 it is longer than 8, and at 65535 the end year wraps to 0 giving
the 6-character "655350"; in every case outside 1000..=9998 parsing the
formatted string returns `none`. -/
theorem C9_season_roundtrip (y : Nat) (hy : y < 65536) :
    ((1000 ≤ y ∧ y ≤ 9998) →
      Season.from_api_str (Season.to_api_string ⟨y⟩) = .ok (some ⟨y⟩)) ∧
    (y < 1000 → (Season.to_api_string ⟨y⟩).length < 8 ∧
      Season.from_api_str (Season.to_api_string ⟨y⟩) = .ok none) ∧
    (9999 ≤ y → y ≤ 65534 → 8 < (Season.to_api_string ⟨y⟩).length ∧
      Season.from_api_str (Season.to_api_string ⟨y⟩) = .ok none) ∧
    (y = 65535 → Season.to_api_string ⟨y⟩ = ("655350").toList ∧
      Season.from_api_str (Season.to_api_string ⟨y⟩) = .ok none) := by
  refine ⟨fun h => season_roundtrip_mid h.1 h.2, ?_, ?_, ?_⟩
  · intro h
    have hl := season_to_api_length_lt h
    exact ⟨hl, season_from_api_str_wrong_len (season_to_api_all_digits _) (by omega)⟩
  · intro h1 h2
    have hl := season_to_api_length_gt h1 h2
    exact ⟨hl, season_from_api_str_wrong_len (season_to_api_all_digits _) (by omega)⟩
  · intro h
    subst h
    exact ⟨rfl, rfl⟩

/-- Witness for C9: the round trip at 2023, and the too-short string at 999. -/
theorem C9_season_roundtrip_witness :
    Season.from_api_str (Season.to_api_string ⟨2023⟩) = .ok (some ⟨2023⟩) ∧
    (Season.to_api_string ⟨999⟩).length < 8 :=
  ⟨(C9_season_roundtrip 2023 (by decide)).1 (by decide),
   ((C9_season_roundtrip 999 (by decide)).2.1 (by decide)).1⟩

/-- C10: on inputs made only of ASCII characters `Season::from_str` is
total — it returns Some or None, never panicking — because on ASCII the
byte length equals the character count, so the 8-byte guard puts byte 4 on
a character boundary; the guard alone does not ensure this: there is an
8-byte input with a multi-byte character astride byte 4 on which the
slicing panics. -/
theorem C10_from_str_ascii_total (s : List Char)
    (hascii : ∀ c ∈ s, c.toNat < 128) :
    (∃ r, Season.from_api_str s = .ok r) ∧
    (utf8Len s = 8 → splitAtByte 4 s = some (s.take 4, s.drop 4)) ∧
    ∃ t : List Char, utf8Len t = 8 ∧ Season.from_api_str t = .error () := by
  have hlen : utf8Len s = s.length := utf8Len_ascii hascii
  have hsplit8 : utf8Len s = 8 → splitAtByte 4 s = some (s.take 4, s.drop 4) := by
    intro h8
    have htake4 : utf8Len (s.take 4) = 4 := by
      rw [utf8Len_ascii (fun c hc => hascii c (List.mem_of_mem_take hc)), List.length_take]
      omega
    have hcomp := splitAtByte_complete (s.take 4) (s.drop 4)
    rw [htake4, List.take_append_drop] at hcomp
    exact hcomp
  refine ⟨?_, hsplit8, ("abcéabc").toList, by decide, rfl⟩
  cases hfs : Season.from_api_str s with
  | ok r => exact ⟨r, rfl⟩
  | error e =>
    have herr : Season.from_api_str s = .error () := by rw [hfs]
    obtain ⟨h8, hno⟩ := (season_from_api_str_error_iff s).mp herr
    have h84 : utf8Len (s.take 4) = 4 := by
      rw [utf8Len_ascii (fun c hc => hascii c (List.mem_of_mem_take hc)), List.length_take]
      omega
    exact absurd h84 (hno (s.take 4) (s.drop 4) (List.take_append_drop 4 s).symm)

/-- Witness for C10: the ASCII input "20232025" (non-consecutive years)
parses without panicking. -/
theorem C10_from_str_ascii_total_witness :
    ∃ r, Season.from_api_str (("20232025").toList) = .ok r :=
  (C10_from_str_ascii_total (("20232025").toList) (by decide)).1

end NhlApi
